import Mathlib

/-!
Verification development for the ProjectGabriel GLaDOS web-UI repository.

The repository consists of two browser-side controllers:
`src/api/webui/memory.js` (memory-management UI) and
`src/api/webui/script.js` (control panel).  This file gives a shallow
embedding of the pure logic of those scripts — filtering, sorting,
reconnect backoff, speech-transcript buffering, debouncing, form
validation, refresh guards, the send-message error handling and the
console length bound — and proves properties about it.

Modelling conventions:
* JS strings are Lean `String`s; character-level operations
  (`toLowerCase`, `trim`, `includes`, `split`) are defined below on
  `List Char` and mirror their ECMAScript behaviour on the ASCII
  fragment the scripts use.
* Timer/event behaviour is modelled by explicit state records and
  step functions: the browser event loop delivers callbacks one at a
  time, so a trace of events is a list processed sequentially.
* `fetch` results are parameters of the embedded functions so that
  every network outcome (success, API failure, thrown exception) can
  be quantified over.
-/

namespace Glados

/-! ## JavaScript string primitives -/

/-- The whitespace characters recognised by `String.prototype.trim`
(restricted to the ASCII range used by the scripts). -/
def isJsSpace (c : Char) : Bool :=
  c = ' ' || c = '\t' || c = '\n' || c = '\r' || c = '\x0b' || c = '\x0c'

/-- `trim` on a character list: drop whitespace from both ends. -/
def trimList (l : List Char) : List Char :=
  ((l.dropWhile isJsSpace).reverse.dropWhile isJsSpace).reverse

/-- `String.prototype.trim`. -/
def jsTrim (s : String) : String := ⟨trimList s.data⟩

/-- `String.prototype.toLowerCase` (ASCII fragment). -/
def jsLower (s : String) : String := ⟨s.data.map Char.toLower⟩

/-- Does `pat` occur at the head of `l`? -/
def prefixAt : List Char → List Char → Bool
  | [], _ => true
  | _ :: _, [] => false
  | a :: as, b :: bs => a = b && prefixAt as bs

/-- `String.prototype.includes`: does `needle` occur anywhere in `hay`? -/
def containsList (hay needle : List Char) : Bool :=
  match hay with
  | [] => needle.isEmpty
  | _ :: t => prefixAt needle hay || containsList t needle

/-- `hay.includes(needle)` on strings. -/
def jsIncludes (hay needle : String) : Bool := containsList hay.data needle.data

/-- `String.prototype.split(',')`: split at every comma, keeping empty
pieces (`",".split(',')` is `["", ""]`). -/
def splitCommaList : List Char → List (List Char)
  | [] => [[]]
  | c :: rest =>
    if c = ',' then [] :: splitCommaList rest
    else
      match splitCommaList rest with
      | [] => [[c]]
      | g :: gs => (c :: g) :: gs

def jsSplitComma (s : String) : List String :=
  (splitCommaList s.data).map (fun l => ⟨l⟩)

/-! ## Memory records (mirrored from the `/api/memory/list` responses) -/

/-- A memory record as consumed by `memory.js`.  `content` uses `""`
for a missing/empty content field (the script only tests its
truthiness); `tags` is `none` when the JSON field is not an array;
`access_count` is the `parseInt` view of the field, `none` when it
does not parse (`NaN`). -/
structure Memory where
  key : String
  content : String
  category : String
  memory_type : String
  tags : Option (List String)
  created_at : String
  updated_at : String
  access_count : Option Int
deriving DecidableEq

/-! ## `applyFiltersAndSearch` (memory.js lines 464–497) -/

/-- The search predicate inside `applyFiltersAndSearch`:
key, content, category or some tag (lowercased) contains the term.
The `content` conjunct mirrors `memory.content && …includes(…)`. -/
def memoryMatchesSearch (term : String) (m : Memory) : Bool :=
  jsIncludes (jsLower m.key) term
  || (!m.content.isEmpty && jsIncludes (jsLower m.content) term)
  || jsIncludes (jsLower m.category) term
  || (match m.tags with
      | some ts => ts.any (fun t => jsIncludes (jsLower t) term)
      | none => false)

/-- The three filter stages of `applyFiltersAndSearch`: search term
(trimmed then lowercased, applied only when non-empty), memory-type
filter, category filter. -/
def applyFiltersAndSearch (search mtFilter catFilter : String)
    (memories : List Memory) : List Memory :=
  let searchTerm := jsLower (jsTrim search)
  let f1 := if searchTerm.isEmpty then memories
            else memories.filter (memoryMatchesSearch searchTerm)
  let f2 := if mtFilter.isEmpty then f1
            else f1.filter (fun m => m.memory_type = mtFilter)
  let f3 := if catFilter.isEmpty then f2
            else f2.filter (fun m => m.category = catFilter)
  f3

/-! ## `applySorting` (memory.js lines 500–523)

`filteredMemories.sort(comparator)`: `Array.prototype.sort` is a
stable sort (ES2019); we model it by a stable insertion sort.  Date
parsing (`new Date(s)` followed by `>` / `<`, which compare the
underlying millisecond values and are both false on `NaN`) is kept
abstract as a parameter `pd : String → Option Int`, `none` standing
for an invalid date. -/

/-- The sortable table columns (`th.sortable` `data-sort` values). -/
inductive SortField
  | key | category | memoryType | createdAt | updatedAt | accessCount
deriving DecidableEq

inductive SortDir | asc | desc
deriving DecidableEq

structure SortSpec where
  field : SortField
  direction : SortDir
deriving DecidableEq

/-- A value as prepared by the comparator: `parseInt(v) || 0` for
`access_count`, `new Date(v)` for `*_at` fields, lowercased string
otherwise. -/
inductive SortVal
  | int (n : Int)
  | date (d : Option Int)
  | str (s : List Char)
deriving DecidableEq

/-- The `comparison` computed by the comparator body:
`1` if `a > b`, `-1` if `a < b`, else `0`. -/
def cmpInt (a b : Int) : Int :=
  if a > b then 1 else if a < b then -1 else 0

/-- JS `>`/`<` on one-character strings compare code units; on whole
strings the comparison is lexicographic. -/
def cmpChar (a b : Char) : Int := cmpInt a.toNat b.toNat

def cmpList : List Char → List Char → Int
  | [], [] => 0
  | [], _ :: _ => -1
  | _ :: _, [] => 1
  | a :: as, b :: bs => if cmpChar a b = 0 then cmpList as bs else cmpChar a b

/-- Date comparison: `NaN` (invalid date) makes both `>` and `<`
false, so the comparison stays `0`. -/
def cmpDate : Option Int → Option Int → Int
  | some a, some b => cmpInt a b
  | _, _ => 0

def cmpVal : SortVal → SortVal → Int
  | .int a, .int b => cmpInt a b
  | .date a, .date b => cmpDate a b
  | .str a, .str b => cmpList a b
  | _, _ => 0

/-- The per-field key extraction of the comparator. -/
def sortKey (pd : String → Option Int) (f : SortField) (m : Memory) : SortVal :=
  match f with
  | .accessCount => .int (m.access_count.getD 0)
  | .createdAt => .date (pd m.created_at)
  | .updatedAt => .date (pd m.updated_at)
  | .key => .str (jsLower m.key).data
  | .category => .str (jsLower m.category).data
  | .memoryType => .str (jsLower m.memory_type).data

/-- The full comparator passed to `sort`, including the
`direction === 'desc' ? -comparison : comparison` final line. -/
def cmpMemory (pd : String → Option Int) (sort : SortSpec) (a b : Memory) : Int :=
  let comparison := cmpVal (sortKey pd sort.field a) (sortKey pd sort.field b)
  if sort.direction = .desc then -comparison else comparison

/-- Stable insertion: place `x` before the first element it is
`≤`-related to.  This matches the stable behaviour guaranteed for
`Array.prototype.sort`. -/
def insertSorted (le : α → α → Bool) (x : α) : List α → List α
  | [] => [x]
  | y :: ys => if le x y then x :: y :: ys else y :: insertSorted le x ys

def stableSort (le : α → α → Bool) : List α → List α
  | [] => []
  | x :: xs => insertSorted le x (stableSort le xs)

/-- `applySorting`: sort by the comparator. -/
def applySorting (pd : String → Option Int) (sort : SortSpec)
    (l : List Memory) : List Memory :=
  stableSort (fun a b => cmpMemory pd sort a b ≤ 0) l

/-- The whole `applyFiltersAndSearch` run, which filters and then
calls `applySorting` on the result, leaving it in `filteredMemories`. -/
def applyFiltersAndSearchRun (pd : String → Option Int) (sort : SortSpec)
    (search mtFilter catFilter : String) (memories : List Memory) : List Memory :=
  applySorting pd sort (applyFiltersAndSearch search mtFilter catFilter memories)

/-! ## Permutation lemmas for the stable sort -/

theorem insertSorted_perm (le : α → α → Bool) (x : α) (l : List α) :
    List.Perm (insertSorted le x l) (x :: l) := by
  induction l with
  | nil => simp [insertSorted]
  | cons y ys ih =>
    simp only [insertSorted]
    by_cases h : le x y
    · simp [h]
    · simp only [h, if_neg, Bool.false_eq_true, if_false]
      exact (ih.cons y).trans (List.Perm.swap x y ys)

theorem stableSort_perm (le : α → α → Bool) (l : List α) :
    List.Perm (stableSort le l) l := by
  induction l with
  | nil => simp [stableSort]
  | cons x xs ih => exact (insertSorted_perm le x _).trans (ih.cons x)

theorem mem_applySorting (pd : String → Option Int) (sort : SortSpec)
    (l : List Memory) (m : Memory) :
    m ∈ applySorting pd sort l ↔ m ∈ l :=
  (stableSort_perm _ l).mem_iff

/-! ## Claim C1 -/

theorem mem_skipFilter {c : Bool} {p : α → Bool} {l : List α} {m : α} :
    m ∈ (if c then l else l.filter p) ↔ m ∈ l ∧ (c = false → p m) := by
  cases c <;> simp [List.mem_filter]

theorem data_ne_nil_of_not_isEmpty {s : String} (h : ¬ s.isEmpty) :
    s.data ≠ [] := by
  intro hd
  apply h
  rw [String.isEmpty_iff]
  cases s with
  | mk d =>
    have hd' : d = [] := hd
    rw [hd']

theorem jsIncludes_empty_hay {needle : String} (h : ¬ needle.isEmpty) :
    jsIncludes "" needle = false := by
  have hd := data_ne_nil_of_not_isEmpty h
  unfold jsIncludes containsList
  show needle.data.isEmpty = false
  cases hn : needle.data with
  | nil => exact absurd hn hd
  | cons a l => rfl

theorem matchesSearch_iff (term : String) (m : Memory)
    (h : ¬ term.isEmpty) :
    memoryMatchesSearch term m = true ↔
      (jsIncludes (jsLower m.key) term = true
       ∨ jsIncludes (jsLower m.content) term = true
       ∨ jsIncludes (jsLower m.category) term = true
       ∨ ∃ t ∈ m.tags.getD [], jsIncludes (jsLower t) term = true) := by
  have hcontent : (!m.content.isEmpty && jsIncludes (jsLower m.content) term)
      = jsIncludes (jsLower m.content) term := by
    cases hc : m.content.isEmpty with
    | false => simp
    | true =>
      have hce : m.content = "" := (String.isEmpty_iff m.content).mp hc
      rw [hce]
      have h0 : jsLower "" = "" := rfl
      rw [h0, jsIncludes_empty_hay h]
      simp
  unfold memoryMatchesSearch
  rw [hcontent]
  cases m.tags with
  | none => simp [Option.getD, or_assoc]
  | some ts => simp [Option.getD, List.any_eq_true, or_assoc]

/-- C1: after `applyFiltersAndSearch` runs, `filteredMemories` contains
exactly those elements of `currentMemories` passing all active filters:
when the trimmed lowercased search term is non-empty the lowercased
key, content or category contains it or some lowercased tag contains
it; when the memory-type filter is non-empty `memory_type` equals it;
when the category filter is non-empty `category` equals it. -/
theorem applyFiltersAndSearch_mem (pd : String → Option Int) (sort : SortSpec)
    (search mtFilter catFilter : String) (memories : List Memory) (m : Memory) :
    m ∈ applyFiltersAndSearchRun pd sort search mtFilter catFilter memories ↔
      m ∈ memories
      ∧ (¬ (jsLower (jsTrim search)).isEmpty →
          (jsIncludes (jsLower m.key) (jsLower (jsTrim search)) = true
           ∨ jsIncludes (jsLower m.content) (jsLower (jsTrim search)) = true
           ∨ jsIncludes (jsLower m.category) (jsLower (jsTrim search)) = true
           ∨ ∃ t ∈ m.tags.getD [],
               jsIncludes (jsLower t) (jsLower (jsTrim search)) = true))
      ∧ (¬ mtFilter.isEmpty → m.memory_type = mtFilter)
      ∧ (¬ catFilter.isEmpty → m.category = catFilter) := by
  unfold applyFiltersAndSearchRun
  rw [mem_applySorting]
  unfold applyFiltersAndSearch
  simp only [mem_skipFilter]
  constructor
  · rintro ⟨⟨⟨h1, h2⟩, h3⟩, h4⟩
    refine ⟨h1, ?_, ?_, ?_⟩
    · intro hne
      exact (matchesSearch_iff _ m hne).mp
        (h2 (by cases hb : (jsLower (jsTrim search)).isEmpty with
                | false => rfl
                | true => exact absurd hb hne))
    · intro hne
      have := h3 (by cases hb : mtFilter.isEmpty with
                | false => rfl
                | true => exact absurd hb hne)
      exact of_decide_eq_true this
    · intro hne
      have := h4 (by cases hb : catFilter.isEmpty with
                | false => rfl
                | true => exact absurd hb hne)
      exact of_decide_eq_true this
  · rintro ⟨h1, h2, h3, h4⟩
    refine ⟨⟨⟨h1, ?_⟩, ?_⟩, ?_⟩
    · intro hb
      have hne : ¬ (jsLower (jsTrim search)).isEmpty := by simp [hb]
      exact (matchesSearch_iff _ m hne).mpr (h2 hne)
    · intro hb
      exact decide_eq_true (h3 (by simp [hb]))
    · intro hb
      exact decide_eq_true (h4 (by simp [hb]))

/-- Concrete instance of the C1 characterisation. -/
theorem applyFiltersAndSearch_mem_witness :
    (⟨"Alpha", "", "general", "long_term", none, "", "", none⟩ : Memory) ∈
      applyFiltersAndSearchRun (fun _ => none) ⟨.key, .asc⟩ "al" "" ""
        [⟨"Alpha", "", "general", "long_term", none, "", "", none⟩] :=
  (applyFiltersAndSearch_mem (fun _ => none) ⟨.key, .asc⟩ "al" "" "" _ _).mpr
    ⟨by decide, fun _ => Or.inl (by decide), fun h => absurd (by decide) h,
     fun h => absurd (by decide) h⟩

/-! ## Claim C2: comparator arithmetic -/

theorem cmpInt_le_iff (a b : Int) : cmpInt a b ≤ 0 ↔ a ≤ b := by
  unfold cmpInt
  split_ifs <;> omega

theorem cmpInt_eq_zero_iff (a b : Int) : cmpInt a b = 0 ↔ a = b := by
  unfold cmpInt
  split_ifs <;>
    first
      | omega
      | (simp only [false_iff, true_iff, iff_false, iff_true]; omega)

theorem cmpInt_lt_iff (a b : Int) : cmpInt a b < 0 ↔ a < b := by
  unfold cmpInt
  split_ifs <;> omega

theorem cmpInt_neg (a b : Int) : cmpInt a b = -cmpInt b a := by
  unfold cmpInt; split_ifs <;> omega

theorem cmpChar_le_iff (a b : Char) : cmpChar a b ≤ 0 ↔ a.toNat ≤ b.toNat := by
  unfold cmpChar; rw [cmpInt_le_iff]; omega

theorem cmpChar_eq_zero_iff (a b : Char) : cmpChar a b = 0 ↔ a.toNat = b.toNat := by
  unfold cmpChar; rw [cmpInt_eq_zero_iff]; omega

theorem cmpChar_lt_iff (a b : Char) : cmpChar a b < 0 ↔ a.toNat < b.toNat := by
  unfold cmpChar; rw [cmpInt_lt_iff]; omega

theorem cmpChar_neg (a b : Char) : cmpChar a b = -cmpChar b a := by
  unfold cmpChar; exact cmpInt_neg _ _

theorem cmpChar_congr_left {a b : Char} (c : Char) (h : a.toNat = b.toNat) :
    cmpChar a c = cmpChar b c := by
  unfold cmpChar; rw [h]

theorem cmpList_neg : ∀ a b : List Char, cmpList a b = -cmpList b a
  | [], [] => rfl
  | [], _ :: _ => rfl
  | _ :: _, [] => rfl
  | a :: as, b :: bs => by
    simp only [cmpList]
    by_cases h : cmpChar a b = 0
    · have h' : cmpChar b a = 0 := by
        rw [cmpChar_eq_zero_iff] at h ⊢; omega
      rw [if_pos h, if_pos h']
      exact cmpList_neg as bs
    · have h' : ¬ cmpChar b a = 0 := by
        rw [cmpChar_eq_zero_iff] at h ⊢; omega
      rw [if_neg h, if_neg h']
      exact cmpChar_neg a b

theorem cmpList_trans : ∀ a b c : List Char,
    cmpList a b ≤ 0 → cmpList b c ≤ 0 → cmpList a c ≤ 0
  | [], _, c, _, _ => by cases c <;> simp [cmpList]
  | _ :: _, [], _, h1, _ => by simp [cmpList] at h1
  | _ :: _, _ :: _, [], _, h2 => by simp [cmpList] at h2
  | a :: as, b :: bs, c :: cs, h1, h2 => by
    simp only [cmpList] at h1 h2 ⊢
    by_cases hab : cmpChar a b = 0
    · rw [if_pos hab] at h1
      by_cases hbc : cmpChar b c = 0
      · rw [if_pos hbc] at h2
        have hac : cmpChar a c = 0 := by
          rw [cmpChar_eq_zero_iff] at hab hbc ⊢; omega
        rw [if_pos hac]
        exact cmpList_trans as bs cs h1 h2
      · rw [if_neg hbc] at h2
        have hac : cmpChar a c = cmpChar b c :=
          cmpChar_congr_left c (cmpChar_eq_zero_iff a b |>.mp hab)
        rw [hac, if_neg (hac ▸ hbc : ¬ cmpChar b c = 0)]
        exact h2
    · rw [if_neg hab] at h1
      have hab' : a.toNat < b.toNat := by
        rw [cmpChar_eq_zero_iff] at hab
        rw [cmpChar_le_iff] at h1
        omega
      by_cases hbc : cmpChar b c = 0
      · have hbc' : b.toNat = c.toNat := cmpChar_eq_zero_iff b c |>.mp hbc
        have hlt : cmpChar a c < 0 := by rw [cmpChar_lt_iff]; omega
        rw [if_neg (by omega : ¬ cmpChar a c = 0)]
        omega
      · rw [if_neg hbc] at h2
        have hbc' : b.toNat < c.toNat := by
          rw [cmpChar_eq_zero_iff] at hbc
          rw [cmpChar_le_iff] at h2
          omega
        have hlt : cmpChar a c < 0 := by rw [cmpChar_lt_iff]; omega
        rw [if_neg (by omega : ¬ cmpChar a c = 0)]
        omega

theorem cmpDate_neg : ∀ a b : Option Int, cmpDate a b = -cmpDate b a
  | some a, some b => cmpInt_neg a b
  | some _, none => rfl
  | none, some _ => rfl
  | none, none => rfl

theorem cmpDate_trans : ∀ a b c : Option Int, b.isSome →
    cmpDate a b ≤ 0 → cmpDate b c ≤ 0 → cmpDate a c ≤ 0
  | none, _, c, _, _, _ => by cases c <;> simp [cmpDate]
  | some _, _, none, _, _, _ => by simp [cmpDate]
  | some a, some b, some c, _, h1, h2 => by
    simp only [cmpDate] at h1 h2 ⊢
    rw [cmpInt_le_iff] at h1 h2 ⊢
    omega
  | some _, none, some _, hb, _, _ => by simp at hb

theorem cmpVal_neg : ∀ a b : SortVal, cmpVal a b = -cmpVal b a := by
  intro a b
  cases a <;> cases b <;>
    first
      | exact cmpInt_neg _ _
      | exact cmpDate_neg _ _
      | exact cmpList_neg _ _
      | simp [cmpVal]

/-- Validity of the sort key of a memory: when sorting by a date
column, the date string must actually parse (an invalid date makes
the JS comparator inconsistent — every comparison yields 0). -/
def dateValidFor (pd : String → Option Int) (f : SortField) (m : Memory) : Prop :=
  match f with
  | .createdAt => (pd m.created_at).isSome
  | .updatedAt => (pd m.updated_at).isSome
  | _ => True

theorem cmpKey_trans (pd : String → Option Int) (f : SortField) (a b c : Memory)
    (hb : dateValidFor pd f b)
    (h1 : cmpVal (sortKey pd f a) (sortKey pd f b) ≤ 0)
    (h2 : cmpVal (sortKey pd f b) (sortKey pd f c) ≤ 0) :
    cmpVal (sortKey pd f a) (sortKey pd f c) ≤ 0 := by
  cases f <;> simp only [sortKey, cmpVal] at h1 h2 ⊢
  case key => exact cmpList_trans _ _ _ h1 h2
  case category => exact cmpList_trans _ _ _ h1 h2
  case memoryType => exact cmpList_trans _ _ _ h1 h2
  case createdAt => exact cmpDate_trans _ _ _ hb h1 h2
  case updatedAt => exact cmpDate_trans _ _ _ hb h1 h2
  case accessCount => rw [cmpInt_le_iff] at h1 h2 ⊢; omega

theorem cmpMemory_neg (pd : String → Option Int) (sort : SortSpec) (a b : Memory) :
    cmpMemory pd sort a b = -cmpMemory pd sort b a := by
  rcases sort with ⟨f, dir⟩
  have h := cmpVal_neg (sortKey pd f a) (sortKey pd f b)
  cases dir <;> simp [cmpMemory, h]

theorem cmpMemory_total (pd : String → Option Int) (sort : SortSpec) (a b : Memory) :
    cmpMemory pd sort a b ≤ 0 ∨ cmpMemory pd sort b a ≤ 0 := by
  have h := cmpMemory_neg pd sort a b
  omega

theorem cmpMemory_trans (pd : String → Option Int) (sort : SortSpec) (a b c : Memory)
    (hb : dateValidFor pd sort.field b)
    (h1 : cmpMemory pd sort a b ≤ 0) (h2 : cmpMemory pd sort b c ≤ 0) :
    cmpMemory pd sort a c ≤ 0 := by
  rcases sort with ⟨f, dir⟩
  cases dir
  case asc =>
    simp only [cmpMemory, reduceCtorEq, if_false] at h1 h2 ⊢
    exact cmpKey_trans pd f a b c hb h1 h2
  case desc =>
    simp only [cmpMemory, if_pos] at h1 h2 ⊢
    have n1 := cmpVal_neg (sortKey pd f a) (sortKey pd f b)
    have n2 := cmpVal_neg (sortKey pd f b) (sortKey pd f c)
    have n3 := cmpVal_neg (sortKey pd f a) (sortKey pd f c)
    have h1' : cmpVal (sortKey pd f b) (sortKey pd f a) ≤ 0 := by omega
    have h2' : cmpVal (sortKey pd f c) (sortKey pd f b) ≤ 0 := by omega
    have := cmpKey_trans pd f c b a hb h2' h1'
    have n4 := cmpVal_neg (sortKey pd f c) (sortKey pd f a)
    omega

/-! ## Sortedness of the stable sort (with hypotheses local to the list,
because the JS comparator is only consistent on valid inputs) -/

theorem pairwise_insertSorted (le : α → α → Bool) (x : α) (l : List α)
    (htot : ∀ a, a ∈ x :: l → ∀ b, b ∈ x :: l → le a b = true ∨ le b a = true)
    (htrans : ∀ a, a ∈ x :: l → ∀ b, b ∈ x :: l → ∀ c, c ∈ x :: l →
        le a b = true → le b c = true → le a c = true)
    (hl : List.Pairwise (fun a b => le a b = true) l) :
    List.Pairwise (fun a b => le a b = true) (insertSorted le x l) := by
  induction l with
  | nil => simp [insertSorted]
  | cons y ys ih =>
    rcases List.pairwise_cons.mp hl with ⟨hy, hys⟩
    have sub : ∀ z, z ∈ x :: ys → z ∈ x :: y :: ys := by
      intro z hz
      rcases List.mem_cons.mp hz with rfl | h
      · exact List.mem_cons_self _ _
      · exact List.mem_cons_of_mem _ (List.mem_cons_of_mem _ h)
    simp only [insertSorted]
    by_cases h : le x y = true
    · rw [if_pos h]
      refine List.pairwise_cons.mpr ⟨?_, hl⟩
      intro b hb
      rcases List.mem_cons.mp hb with rfl | hb'
      · exact h
      · exact htrans x (List.mem_cons_self _ _)
          y (List.mem_cons_of_mem _ (List.mem_cons_self _ _))
          b (List.mem_cons_of_mem _ (List.mem_cons_of_mem _ hb'))
          h (hy b hb')
    · rw [if_neg h]
      refine List.pairwise_cons.mpr
        ⟨?_, ih (fun a ha b hb => htot a (sub a ha) b (sub b hb))
             (fun a ha b hb c hc => htrans a (sub a ha) b (sub b hb) c (sub c hc))
             hys⟩
      intro b hb
      have hb2 := (insertSorted_perm le x ys).mem_iff.mp hb
      rcases List.mem_cons.mp hb2 with hbx | hb'
      · rcases htot x (List.mem_cons_self _ _)
          y (List.mem_cons_of_mem _ (List.mem_cons_self _ _)) with hxy | hyx
        · exact absurd hxy h
        · rw [hbx]
          exact hyx
      · exact hy b hb'

theorem pairwise_stableSort (le : α → α → Bool) (l : List α)
    (htot : ∀ a, a ∈ l → ∀ b, b ∈ l → le a b = true ∨ le b a = true)
    (htrans : ∀ a, a ∈ l → ∀ b, b ∈ l → ∀ c, c ∈ l →
        le a b = true → le b c = true → le a c = true) :
    List.Pairwise (fun a b => le a b = true) (stableSort le l) := by
  induction l with
  | nil => simp [stableSort]
  | cons x xs ih =>
    have hmem : ∀ z, z ∈ x :: stableSort le xs → z ∈ x :: xs := by
      intro z hz
      rcases List.mem_cons.mp hz with rfl | h
      · exact List.mem_cons_self _ _
      · exact List.mem_cons_of_mem _ ((stableSort_perm le xs).mem_iff.mp h)
    exact pairwise_insertSorted le x (stableSort le xs)
      (fun a ha b hb => htot a (hmem a ha) b (hmem b hb))
      (fun a ha b hb c hc => htrans a (hmem a ha) b (hmem b hb) c (hmem c hc))
      (ih (fun a ha b hb => htot a (List.mem_cons_of_mem _ ha) b (List.mem_cons_of_mem _ hb))
          (fun a ha b hb c hc => htrans a (List.mem_cons_of_mem _ ha)
            b (List.mem_cons_of_mem _ hb) c (List.mem_cons_of_mem _ hc)))

theorem applySorting_perm (pd : String → Option Int) (sort : SortSpec)
    (l : List Memory) : List.Perm (applySorting pd sort l) l :=
  stableSort_perm _ l

theorem applySorting_pairwise (pd : String → Option Int) (sort : SortSpec)
    (l : List Memory) (hvalid : ∀ m ∈ l, dateValidFor pd sort.field m) :
    List.Pairwise (fun a b => cmpMemory pd sort a b ≤ 0) (applySorting pd sort l) := by
  have h := pairwise_stableSort (fun a b => decide (cmpMemory pd sort a b ≤ 0)) l
    (fun a _ b _ => by
      rcases cmpMemory_total pd sort a b with h | h
      · exact Or.inl (decide_eq_true h)
      · exact Or.inr (decide_eq_true h))
    (fun a _ b hb c _ h1 h2 => decide_eq_true
      (cmpMemory_trans pd sort a b c (hvalid b hb)
        (of_decide_eq_true h1) (of_decide_eq_true h2)))
  exact h.imp (fun hab => of_decide_eq_true hab)

theorem applySorting_desc_eq_reverse (pd : String → Option Int) (f : SortField)
    (l : List Memory)
    (hvalid : ∀ m ∈ l, dateValidFor pd f m)
    (hinj : ∀ a ∈ l, ∀ b ∈ l,
        cmpVal (sortKey pd f a) (sortKey pd f b) = 0 → a = b) :
    applySorting pd ⟨f, .desc⟩ l = (applySorting pd ⟨f, .asc⟩ l).reverse := by
  have pdesc : List.Perm (applySorting pd ⟨f, .desc⟩ l) l := applySorting_perm pd _ l
  have pasc : List.Perm (applySorting pd ⟨f, .asc⟩ l) l := applySorting_perm pd _ l
  have hrev : List.Perm (applySorting pd ⟨f, .asc⟩ l).reverse l :=
    (List.reverse_perm _).trans pasc
  have s1 : List.Pairwise (fun a b => cmpMemory pd ⟨f, .desc⟩ a b ≤ 0)
      (applySorting pd ⟨f, .desc⟩ l) := applySorting_pairwise pd _ l hvalid
  have s2 : List.Pairwise (fun a b => cmpMemory pd ⟨f, .desc⟩ a b ≤ 0)
      (applySorting pd ⟨f, .asc⟩ l).reverse := by
    rw [List.pairwise_reverse]
    refine (applySorting_pairwise pd ⟨f, .asc⟩ l hvalid).imp ?_
    intro a b hab
    have h1 : cmpVal (sortKey pd f a) (sortKey pd f b) ≤ 0 := by
      simpa [cmpMemory] using hab
    have hneg := cmpVal_neg (sortKey pd f b) (sortKey pd f a)
    show cmpMemory pd ⟨f, .desc⟩ b a ≤ 0
    simp only [cmpMemory]
    rw [if_pos trivial]
    omega
  refine List.Perm.eq_of_sorted ?_ s1 s2 (pdesc.trans hrev.symm)
  intro a b ha hb hab hba
  have hmem_a : a ∈ l := pdesc.subset ha
  have hmem_b : b ∈ l := hrev.subset hb
  have hneg := cmpMemory_neg pd ⟨f, .desc⟩ a b
  have hz : cmpMemory pd ⟨f, .desc⟩ a b = 0 := by omega
  apply hinj a hmem_a b hmem_b
  simp only [cmpMemory] at hz
  rw [if_pos trivial] at hz
  omega

/-- C2 (amended): `applySorting` orders `filteredMemories` by the
field-dependent comparison (integers with `parseInt(v) || 0` for
`access_count`, dates for `*_at` fields, lowercased strings
otherwise), non-decreasingly for 'asc' and non-increasingly for
'desc', provided the comparison is consistent on the list (date
values parse when sorting by a date field); the multiset of elements
is always unchanged; and the 'desc' result is the reverse of the
'asc' result whenever no two elements of the list have equal sort
values. -/
theorem applySorting_spec (pd : String → Option Int) (sort : SortSpec)
    (l : List Memory) :
    List.Perm (applySorting pd sort l) l
    ∧ ((∀ m ∈ l, dateValidFor pd sort.field m) →
        List.Pairwise (fun a b => cmpMemory pd sort a b ≤ 0)
          (applySorting pd sort l))
    ∧ ((∀ m ∈ l, dateValidFor pd sort.field m) →
       (∀ a ∈ l, ∀ b ∈ l,
          cmpVal (sortKey pd sort.field a) (sortKey pd sort.field b) = 0 → a = b) →
        applySorting pd ⟨sort.field, .desc⟩ l
          = (applySorting pd ⟨sort.field, .asc⟩ l).reverse) :=
  ⟨applySorting_perm pd sort l,
   fun hv => applySorting_pairwise pd sort l hv,
   fun hv hinj => applySorting_desc_eq_reverse pd sort.field l hv hinj⟩

def cexMemA : Memory := ⟨"a", "", "c", "long_term", none, "", "", none⟩
def cexMemB : Memory := ⟨"b", "", "c", "long_term", none, "", "", none⟩

/-- C2 counterexample: two distinct memories tied on the sort field
(equal `category`).  The stable sort leaves both orders identical,
so the descending result is not the reverse of the ascending one. -/
theorem applySorting_desc_not_reverse :
    applySorting (fun _ => none) ⟨.category, .desc⟩ [cexMemA, cexMemB]
      ≠ ((applySorting (fun _ => none) ⟨.category, .asc⟩ [cexMemA, cexMemB]).reverse) := by
  decide

/-- Concrete instance of the C2 specification. -/
theorem applySorting_spec_witness :
    List.Perm (applySorting (fun _ => none) ⟨.key, .desc⟩ [cexMemA, cexMemB])
        [cexMemA, cexMemB]
    ∧ applySorting (fun _ => none) ⟨.key, .desc⟩ [cexMemA, cexMemB]
        = ((applySorting (fun _ => none) ⟨.key, .asc⟩ [cexMemA, cexMemB]).reverse) :=
  have h := applySorting_spec (fun _ => none) ⟨.key, .desc⟩ [cexMemA, cexMemB]
  ⟨h.1, h.2.2 (fun _ _ => trivial) (by decide)⟩

/-! ## Claims C3 and C4: WebSocket reconnect backoff (script.js)

State of the reconnect logic of `GabrielControlPanel`:
`reconnectAttempts`, `reconnectDelay`, the displayed WebSocket status
and whether a reconnect timer is pending.  The browser delivers
`onopen`/`onclose` for the current connection attempt and the
`setTimeout` callback of `scheduleReconnect`; each connection attempt
ends in exactly one of open or close, and while a reconnect timer is
pending there is no live connection attempt, so `WsReach` guards
`opened`/`closed` on no pending timer and `timer` on a pending one. -/

inductive WsStatus
  | connected | connecting | disconnected | error | failed
deriving DecidableEq

structure WsState where
  reconnectAttempts : Nat
  reconnectDelay : Nat
  wsStatus : WsStatus
  pendingTimer : Bool
deriving DecidableEq

def maxReconnectAttempts : Nat := 5

/-- State after the constructor plus the initial `connectWebSocket`. -/
def wsInit : WsState :=
  { reconnectAttempts := 0, reconnectDelay := 1000,
    wsStatus := .connecting, pendingTimer := false }

/-- `scheduleReconnect` (script.js lines 734–749): give up once
`reconnectAttempts >= maxReconnectAttempts`, otherwise start a timer
with the current delay and then double the delay, capped at 30000. -/
def scheduleReconnect (s : WsState) : WsState :=
  if s.reconnectAttempts ≥ maxReconnectAttempts then
    { s with wsStatus := .failed }
  else
    { s with pendingTimer := true,
             reconnectDelay := min (s.reconnectDelay * 2) 30000 }

/-- The `onopen` handler (lines 698–703): reset attempts and delay. -/
def onOpen (s : WsState) : WsState :=
  { s with wsStatus := .connected, reconnectAttempts := 0, reconnectDelay := 1000 }

/-- The `onclose` handler (lines 714–718): mark disconnected, then
`scheduleReconnect` (which may overwrite the status with failed). -/
def onClose (s : WsState) : WsState :=
  scheduleReconnect { s with wsStatus := .disconnected }

/-- The `setTimeout` callback inside `scheduleReconnect` (lines
741–745): increment the attempt counter and call `connectWebSocket`,
which displays 'connecting'. -/
def onTimer (s : WsState) : WsState :=
  { s with pendingTimer := false,
           reconnectAttempts := s.reconnectAttempts + 1,
           wsStatus := .connecting }

/-- Reachable states of the reconnect logic. -/
inductive WsReach : WsState → Prop
  | init : WsReach wsInit
  | opened {s : WsState} : WsReach s → s.pendingTimer = false → WsReach (onOpen s)
  | closed {s : WsState} : WsReach s → s.pendingTimer = false → WsReach (onClose s)
  | timer {s : WsState} : WsReach s → s.pendingTimer = true → WsReach (onTimer s)

/-- The combined reconnect invariant: delay bounds, attempt bound,
and a pending timer implies attempts are below the maximum. -/
def WsInv (s : WsState) : Prop :=
  1000 ≤ s.reconnectDelay ∧ s.reconnectDelay ≤ 30000
  ∧ s.reconnectAttempts ≤ maxReconnectAttempts
  ∧ (s.pendingTimer = true → s.reconnectAttempts < maxReconnectAttempts)

theorem onOpen_wsInv (s : WsState) : WsInv (onOpen s) := by
  refine ⟨?_, ?_, ?_, ?_⟩
  · show 1000 ≤ 1000
    omega
  · show (1000 : Nat) ≤ 30000
    omega
  · show 0 ≤ maxReconnectAttempts
    omega
  · intro _
    show 0 < maxReconnectAttempts
    unfold maxReconnectAttempts
    omega

theorem scheduleReconnect_wsInv (s : WsState) (h : WsInv s)
    (hp : s.pendingTimer = false) : WsInv (scheduleReconnect s) := by
  rcases h with ⟨h1, h2, h3, _⟩
  unfold scheduleReconnect
  split_ifs with hge
  · refine ⟨h1, h2, h3, ?_⟩
    intro hpend
    have hpend' : s.pendingTimer = true := hpend
    rw [hp] at hpend'
    cases hpend'
  · refine ⟨?_, ?_, h3, ?_⟩
    · show 1000 ≤ min (s.reconnectDelay * 2) 30000
      omega
    · show min (s.reconnectDelay * 2) 30000 ≤ 30000
      omega
    · intro _
      show s.reconnectAttempts < maxReconnectAttempts
      omega

theorem onClose_wsInv (s : WsState) (h : WsInv s)
    (hp : s.pendingTimer = false) : WsInv (onClose s) :=
  scheduleReconnect_wsInv _ ⟨h.1, h.2.1, h.2.2.1, fun hpend => by
      have hpend' : s.pendingTimer = true := hpend
      rw [hp] at hpend'
      cases hpend'⟩ hp

theorem onTimer_wsInv (s : WsState) (h : WsInv s)
    (hp : s.pendingTimer = true) : WsInv (onTimer s) := by
  rcases h with ⟨h1, h2, _, h4⟩
  have hlt := h4 hp
  refine ⟨h1, h2, ?_, ?_⟩
  · show s.reconnectAttempts + 1 ≤ maxReconnectAttempts
    omega
  · intro hpend
    have hpend' : (false : Bool) = true := hpend
    cases hpend'

theorem wsReach_invariant {s : WsState} (h : WsReach s) : WsInv s := by
  induction h with
  | init =>
    refine ⟨?_, ?_, ?_, ?_⟩ <;> first
      | (show (1000 : Nat) ≤ 1000; omega)
      | (show (1000 : Nat) ≤ 30000; omega)
      | (show 0 ≤ maxReconnectAttempts; omega)
      | (intro hpend; exact absurd hpend (by decide))
  | opened _ _ _ => exact onOpen_wsInv _
  | closed _ hp ih => exact onClose_wsInv _ ih hp
  | timer _ hp ih => exact onTimer_wsInv _ ih hp

/-- C3: the reconnect delay starts at 1000 ms; every scheduling call
updates it to `min(2 * delay, 30000)`; on every reachable state it
stays within [1000, 30000]; and a successful open resets the delay to
1000 and the attempt counter to 0. -/
theorem reconnectDelay_backoff :
    wsInit.reconnectDelay = 1000
    ∧ (∀ s : WsState, s.reconnectAttempts < maxReconnectAttempts →
        (scheduleReconnect s).pendingTimer = true
        ∧ (scheduleReconnect s).reconnectDelay = min (2 * s.reconnectDelay) 30000)
    ∧ (∀ s : WsState, WsReach s →
        1000 ≤ s.reconnectDelay ∧ s.reconnectDelay ≤ 30000)
    ∧ (∀ s : WsState, (onOpen s).reconnectDelay = 1000
        ∧ (onOpen s).reconnectAttempts = 0) := by
  refine ⟨rfl, ?_, ?_, ?_⟩
  · intro s hlt
    unfold scheduleReconnect
    rw [if_neg (by omega)]
    exact ⟨rfl, by simp [Nat.mul_comm]⟩
  · intro s hs
    exact ⟨(wsReach_invariant hs).1, (wsReach_invariant hs).2.1⟩
  · intro s
    exact ⟨rfl, rfl⟩

/-- Concrete instance of the C3 statement. -/
theorem reconnectDelay_backoff_witness :
    (scheduleReconnect wsInit).reconnectDelay = min (2 * 1000) 30000
    ∧ 1000 ≤ wsInit.reconnectDelay ∧ wsInit.reconnectDelay ≤ 30000 :=
  ⟨(reconnectDelay_backoff.2.1 wsInit (by decide)).2,
   reconnectDelay_backoff.2.2.1 wsInit WsReach.init⟩

/-! For C4 we also count reconnect attempts along event traces. -/

inductive WsEvent
  | opened | closed | timer
deriving DecidableEq

/-- A run of the reconnect logic along a list of events, with the
same guards as `WsReach`. -/
inductive WsSteps : WsState → List WsEvent → WsState → Prop
  | nil {s : WsState} : WsSteps s [] s
  | opened {s s' : WsState} {es : List WsEvent} : s.pendingTimer = false →
      WsSteps (onOpen s) es s' → WsSteps s (.opened :: es) s'
  | closed {s s' : WsState} {es : List WsEvent} : s.pendingTimer = false →
      WsSteps (onClose s) es s' → WsSteps s (.closed :: es) s'
  | timer {s s' : WsState} {es : List WsEvent} : s.pendingTimer = true →
      WsSteps (onTimer s) es s' → WsSteps s (.timer :: es) s'

theorem wsSteps_reach {s s' : WsState} {es : List WsEvent}
    (hr : WsReach s) (h : WsSteps s es s') : WsReach s' := by
  induction h with
  | nil => exact hr
  | opened hp _ ih => exact ih (WsReach.opened hr hp)
  | closed hp _ ih => exact ih (WsReach.closed hr hp)
  | timer hp _ ih => exact ih (WsReach.timer hr hp)

/-- Without an intervening open event, the attempt counter advances by
exactly the number of fired reconnect timers. -/
theorem onClose_attempts (s : WsState) :
    (onClose s).reconnectAttempts = s.reconnectAttempts := by
  unfold onClose scheduleReconnect
  split_ifs <;> rfl

theorem onTimer_attempts (s : WsState) :
    (onTimer s).reconnectAttempts = s.reconnectAttempts + 1 := rfl

theorem wsSteps_attempts_count {s s' : WsState} {es : List WsEvent}
    (h : WsSteps s es s') (hno : WsEvent.opened ∉ es) :
    s'.reconnectAttempts = s.reconnectAttempts + es.count WsEvent.timer := by
  induction h with
  | nil => simp
  | opened hp hs ih => exact absurd (List.mem_cons_self _ _) hno
  | closed hp hs ih =>
    have hno' := fun hm => hno (List.mem_cons_of_mem _ hm)
    rw [ih hno', onClose_attempts]
    simp [List.count_cons]
  | timer hp hs ih =>
    have hno' := fun hm => hno (List.mem_cons_of_mem _ hm)
    rw [ih hno', onTimer_attempts]
    simp [List.count_cons]
    omega

/-- C4: once `reconnectAttempts` has reached 5, `scheduleReconnect`
only sets the status to failed and schedules nothing; on reachable
states the counter never exceeds 5; and a reachable open-free event
trace contains at most 5 timer firings (reconnect attempts). -/
theorem reconnect_attempts_bounded :
    (∀ s : WsState, maxReconnectAttempts ≤ s.reconnectAttempts →
        scheduleReconnect s = { s with wsStatus := .failed })
    ∧ (∀ s : WsState, WsReach s → s.reconnectAttempts ≤ 5)
    ∧ (∀ (s s' : WsState) (es : List WsEvent), WsReach s → WsSteps s es s' →
        WsEvent.opened ∉ es → es.count WsEvent.timer ≤ 5) := by
  refine ⟨?_, ?_, ?_⟩
  · intro s hge
    unfold scheduleReconnect
    rw [if_pos (by omega)]
  · intro s hs
    exact (wsReach_invariant hs).2.2.1
  · intro s s' es hs hsteps hno
    have hcount := wsSteps_attempts_count hsteps hno
    have hbound := (wsReach_invariant (wsSteps_reach hs hsteps)).2.2.1
    unfold maxReconnectAttempts at hbound
    omega

/-- Concrete instance of the C4 statement. -/
theorem reconnect_attempts_bounded_witness :
    scheduleReconnect ⟨5, 30000, .disconnected, false⟩
      = { (⟨5, 30000, .disconnected, false⟩ : WsState) with wsStatus := .failed }
    ∧ wsInit.reconnectAttempts ≤ 5 :=
  ⟨reconnect_attempts_bounded.1 ⟨5, 30000, .disconnected, false⟩ (by decide),
   reconnect_attempts_bounded.2.1 wsInit WsReach.init⟩

/-! ## Control-panel console and state (script.js)

A console line is modelled by its CSS type and its message text; the
`[timestamp]` span and HTML markup are presentational and flattened
into the text.  Toasts are modelled the same way. -/

structure ConsoleLine where
  type : String
  text : String
deriving DecidableEq

structure Toast where
  type : String
  message : String
deriving DecidableEq

/-- `String.prototype.replace(pat, '')`: remove the first occurrence
of `pat` (used for the `'Gabriel: '` prefix of streamed chunks). -/
def replaceFirstList (pat : List Char) : List Char → List Char
  | [] => []
  | c :: rest =>
    if prefixAt pat (c :: rest) then (c :: rest).drop pat.length
    else c :: replaceFirstList pat rest

def jsReplaceFirst (s pat : String) : String := ⟨replaceFirstList pat.data s.data⟩

/-- Append a line, then drop the oldest line when the count exceeds
1000 (`if (lines.length > 1000) removeChild(lines[0])`). -/
def consolePush (c : List ConsoleLine) (line : ConsoleLine) : List ConsoleLine :=
  if 1000 < (c ++ [line]).length then (c ++ [line]).tail else c ++ [line]

/-- Append text to the message span of the last line. -/
def appendToLastText : List ConsoleLine → String → List ConsoleLine
  | [], _ => []
  | [l], t => [{ l with text := l.text ++ t }]
  | x :: y :: xs, t => x :: appendToLastText (y :: xs) t

/-- Is the last console line a `response` line? -/
def lastIsResponse (c : List ConsoleLine) : Bool :=
  match c.getLast? with
  | some l => l.type = "response"
  | none => false

/-- `addConsoleMessage` (script.js lines 498–537).  When `newLine` is
false and both the new and the last line are `response` lines, the
text (with its `'Gabriel: '` prefix removed) is appended to the last
line; otherwise a fresh line is appended and the console trimmed. -/
def addConsoleMessage (c : List ConsoleLine) (type msg : String)
    (newLine : Bool) : List ConsoleLine :=
  if !newLine && type = "response" && lastIsResponse c then
    appendToLastText c (jsReplaceFirst msg "Gabriel: ")
  else
    consolePush c ⟨type, msg⟩

structure FunctionCallData where
  name : String
  argsJson : String
deriving DecidableEq

/-- `addFunctionCallMessage` (lines 539–570); the rendered HTML is
flattened to its text content. -/
def addFunctionCallMessage (c : List ConsoleLine) (d : FunctionCallData) :
    List ConsoleLine :=
  consolePush c
    ⟨"function-call", "⚡ Function Call: " ++ d.name ++ " [Show Args] " ++ d.argsJson⟩

structure FunctionResponseData where
  name : String
  successField : Option Bool
  messageField : Option String
  responseJson : String
deriving DecidableEq

/-- `addFunctionResponseMessage` (lines 572–608); `success` mirrors
`response?.success !== false` and `message` mirrors
`response?.message || 'No message'`. -/
def addFunctionResponseMessage (c : List ConsoleLine) (d : FunctionResponseData) :
    List ConsoleLine :=
  let success := d.successField ≠ some false
  let statusIcon := if success then "✓" else "✗"
  let message := d.messageField.getD "No message"
  consolePush c
    ⟨"function-response", statusIcon ++ " Function Response: " ++ d.name ++ " "
      ++ message ++ " [Show Full Response] " ++ d.responseJson⟩

/-- The mutable fields of `GabrielControlPanel` and of the DOM that
the modelled operations touch. -/
structure PanelState where
  console : List ConsoleLine
  toasts : List Toast
  loadingVisible : Bool
  sendDisabled : Bool
  messageInput : String
  charCounter : String
  messageTypeSystem : Bool
  userSpeechBuffer : List String
  speechTimerPending : Bool
deriving DecidableEq

/-! ## Claim C5: speech-transcript buffering -/

def joinSpace (l : List String) : String := String.intercalate " " l

/-- `flushUserSpeechBuffer` (script.js lines 901–922): on a non-empty
buffer, cancel the pending timer, join the texts with spaces and trim;
log one `user-speech` line when the joined text is non-empty; clear
the buffer. -/
def flushUserSpeechBuffer (s : PanelState) : PanelState :=
  if s.userSpeechBuffer.isEmpty then s
  else
    { s with userSpeechBuffer := [], speechTimerPending := false,
             console :=
               if (jsTrim (joinSpace s.userSpeechBuffer)).isEmpty then s.console
               else addConsoleMessage s.console "user-speech"
                      ("[User Speech]: " ++ jsTrim (joinSpace s.userSpeechBuffer)) true }

/-- An incoming WebSocket message; payload fields relevant for the
branch taken are carried side by side. -/
structure WsMsg where
  type : String
  dataText : String
  dataMessage : String
  fcall : FunctionCallData
  fresp : FunctionResponseData
deriving DecidableEq

/-- The `switch` body of `handleWebSocketMessage` (lines 759–844).
Side effects on DOM toggles (yap-mode checkbox, personality reload)
do not touch the modelled state and are elided. -/
def processWsMessage (s : PanelState) (m : WsMsg) : PanelState :=
  if m.type = "connection" then
    { s with console := addConsoleMessage s.console "success" m.dataMessage true }
  else if m.type = "user_message" then
    { s with console := addConsoleMessage s.console "info" m.dataMessage true }
  else if m.type = "system_instruction" then
    { s with console := addConsoleMessage s.console "system" m.dataMessage true }
  else if m.type = "function_call" then
    { s with console := addFunctionCallMessage s.console m.fcall }
  else if m.type = "function_response" then
    { s with console := addFunctionResponseMessage s.console m.fresp }
  else if m.type = "user_input_transcription" then
    { s with userSpeechBuffer := s.userSpeechBuffer ++ [m.dataText],
             speechTimerPending := true }
  else if m.type = "text_chunk" then
    { s with console := addConsoleMessage s.console "response" ("Gabriel: " ++ m.dataText) false }
  else if m.type = "transcription_chunk" then s
  else if m.type = "complete_response" then
    { s with console := addConsoleMessage s.console "response" ("Gabriel (complete): " ++ m.dataText) true }
  else if m.type = "system" then
    { s with console := addConsoleMessage s.console "system" m.dataMessage true }
  else if m.type = "error" then
    { s with console := addConsoleMessage s.console "error" m.dataMessage true }
  else s

/-- `handleWebSocketMessage` (lines 751–795): every message whose
type is not a transcription, heartbeat or pong first flushes the
speech buffer. -/
def handleWebSocketMessage (s : PanelState) (m : WsMsg) : PanelState :=
  let s1 := if m.type ≠ "user_input_transcription" && m.type ≠ "heartbeat"
               && m.type ≠ "pong"
            then flushUserSpeechBuffer s else s
  processWsMessage s1 m

theorem addConsoleMessage_newLine (c : List ConsoleLine) (type msg : String) :
    addConsoleMessage c type msg true = consolePush c ⟨type, msg⟩ := rfl

/-- C5 counterexample: a buffer holding one empty-string transcription
is non-empty, but the flush appends no console line (the joined,
trimmed text is empty and the `if (combinedText)` guard skips the
log). -/
theorem flushUserSpeechBuffer_empty_text_no_line :
    (⟨[], [], false, false, "", "0/1000", false, [""], true⟩ : PanelState).userSpeechBuffer ≠ []
    ∧ (flushUserSpeechBuffer
        ⟨[], [], false, false, "", "0/1000", false, [""], true⟩).console.length
      ≠ ([] : List ConsoleLine).length + 1 := by
  decide

/-- C5 (amended): on a non-empty buffer whose joined trimmed text is
non-empty, `flushUserSpeechBuffer` appends exactly one `user-speech`
line whose text is `[User Speech]: ` followed by the buffered texts
joined by single spaces and trimmed; when the joined trimmed text is
empty no line is appended; in both cases the pending flush timer is
cancelled and the buffer emptied; an empty buffer changes nothing.
In `handleWebSocketMessage`, every message whose type is not
`user_input_transcription`, `heartbeat` or `pong` triggers the flush
before the message is processed. -/
theorem flushUserSpeechBuffer_spec (s : PanelState) (m : WsMsg) :
    (s.userSpeechBuffer ≠ [] → ¬ (jsTrim (joinSpace s.userSpeechBuffer)).isEmpty →
       (flushUserSpeechBuffer s).console
         = consolePush s.console
             ⟨"user-speech", "[User Speech]: " ++ jsTrim (joinSpace s.userSpeechBuffer)⟩)
    ∧ (s.userSpeechBuffer ≠ [] → (jsTrim (joinSpace s.userSpeechBuffer)).isEmpty →
       (flushUserSpeechBuffer s).console = s.console)
    ∧ (s.userSpeechBuffer ≠ [] →
       (flushUserSpeechBuffer s).userSpeechBuffer = []
       ∧ (flushUserSpeechBuffer s).speechTimerPending = false)
    ∧ (s.userSpeechBuffer = [] → flushUserSpeechBuffer s = s)
    ∧ (m.type ≠ "user_input_transcription" → m.type ≠ "heartbeat" → m.type ≠ "pong" →
        handleWebSocketMessage s m = processWsMessage (flushUserSpeechBuffer s) m) := by
  refine ⟨?_, ?_, ?_, ?_, ?_⟩
  · intro hne hct
    unfold flushUserSpeechBuffer
    rw [if_neg (by simp [List.isEmpty_iff, hne])]
    show (if (jsTrim (joinSpace s.userSpeechBuffer)).isEmpty then s.console
          else addConsoleMessage s.console "user-speech"
            ("[User Speech]: " ++ jsTrim (joinSpace s.userSpeechBuffer)) true) = _
    rw [if_neg (by simpa using hct)]
    exact addConsoleMessage_newLine _ _ _
  · intro hne hct
    unfold flushUserSpeechBuffer
    rw [if_neg (by simp [List.isEmpty_iff, hne])]
    show (if (jsTrim (joinSpace s.userSpeechBuffer)).isEmpty then s.console
          else addConsoleMessage s.console "user-speech"
            ("[User Speech]: " ++ jsTrim (joinSpace s.userSpeechBuffer)) true) = _
    rw [if_pos hct]
  · intro hne
    unfold flushUserSpeechBuffer
    rw [if_neg (by simp [List.isEmpty_iff, hne])]
    exact ⟨rfl, rfl⟩
  · intro he
    unfold flushUserSpeechBuffer
    rw [if_pos (by simp [he])]
  · intro h1 h2 h3
    unfold handleWebSocketMessage
    rw [if_pos]
    simp only [Bool.and_eq_true, decide_eq_true_eq, ne_eq]
    exact ⟨⟨h1, h2⟩, h3⟩

/-- Concrete instance of the C5 specification. -/
theorem flushUserSpeechBuffer_spec_witness :
    (flushUserSpeechBuffer
        ⟨[], [], false, false, "", "0/1000", false, ["hello", "there"], true⟩).console
      = consolePush [] ⟨"user-speech", "[User Speech]: " ++ jsTrim (joinSpace ["hello", "there"])⟩ :=
  (flushUserSpeechBuffer_spec
      ⟨[], [], false, false, "", "0/1000", false, ["hello", "there"], true⟩
      ⟨"heartbeat", "", "", ⟨"", ""⟩, ⟨"", none, none, ""⟩⟩).1
    (by decide) (by decide)

/-! ## Claim C10: console length bound -/

theorem consolePush_length (c : List ConsoleLine) (line : ConsoleLine)
    (h : c.length ≤ 1000) : (consolePush c line).length ≤ 1000 := by
  unfold consolePush
  split_ifs with hgt
  · simp only [List.length_tail, List.length_append, List.length_cons,
      List.length_nil] at *
    omega
  · simp only [List.length_append, List.length_cons, List.length_nil] at *
    omega

theorem appendToLastText_length (t : String) : ∀ c : List ConsoleLine,
    (appendToLastText c t).length = c.length
  | [] => rfl
  | [_] => rfl
  | x :: y :: xs => by
    simp only [appendToLastText, List.length_cons]
    rw [appendToLastText_length t (y :: xs)]
    simp

/-- C10: if the console holds at most 1000 lines before a call, each
of `addConsoleMessage`, `addFunctionCallMessage` and
`addFunctionResponseMessage` leaves it with at most 1000 lines (each
appends at most one line and drops the oldest when the count exceeds
1000). -/
theorem console_bound (c : List ConsoleLine) (type msg : String) (newLine : Bool)
    (dc : FunctionCallData) (dr : FunctionResponseData) (h : c.length ≤ 1000) :
    (addConsoleMessage c type msg newLine).length ≤ 1000
    ∧ (addFunctionCallMessage c dc).length ≤ 1000
    ∧ (addFunctionResponseMessage c dr).length ≤ 1000 := by
  refine ⟨?_, consolePush_length _ _ h, consolePush_length _ _ h⟩
  unfold addConsoleMessage
  split_ifs with hcond
  · rw [appendToLastText_length]
    exact h
  · exact consolePush_length _ _ h

/-- Concrete instance of the C10 bound. -/
theorem console_bound_witness :
    (addConsoleMessage [] "system" "Console cleared" true).length ≤ 1000
    ∧ (addFunctionCallMessage [] ⟨"f", "null"⟩).length ≤ 1000
    ∧ (addFunctionResponseMessage [] ⟨"f", none, none, "null"⟩).length ≤ 1000 :=
  console_bound [] "system" "Console cleared" true ⟨"f", "null"⟩
    ⟨"f", none, none, "null"⟩ (by decide)

/-! ## Claim C9: `sendMessage` error handling (script.js lines 417–462)

The outcome of `fetch` + `response.json()` is a parameter: either a
parsed reply (with its `success` flag and optional `message` field)
or a thrown exception (network failure or JSON parse error).  The try
block is modelled as an `Except` computation; `sendMessage` composes
it with the catch and finally blocks, and returning `.ok` everywhere
is the no-exception-escapes property. -/

inductive FetchOutcome
  | reply (success : Bool) (message : Option String)
  | thrown (errMsg : String)
deriving DecidableEq

/-- `showLoading` (lines 648–651). -/
def showLoadingPanel (s : PanelState) : PanelState :=
  { s with loadingVisible := true, sendDisabled := true }

/-- `hideLoading` (lines 653–656). -/
def hideLoadingPanel (s : PanelState) : PanelState :=
  { s with loadingVisible := false, sendDisabled := false }

def addToast (s : PanelState) (type msg : String) : PanelState :=
  { s with toasts := s.toasts ++ [⟨type, msg⟩] }

/-- The try block of `sendMessage` after the empty-message guard:
`showLoading`, the fetch/json (which may throw), then the
`data.success` branch, which throws `data.message || 'Failed to send
message'` when false. -/
def sendMessageTry (s : PanelState) (o : FetchOutcome) : Except String PanelState :=
  match o with
  | .thrown e => .error e
  | .reply ok msgField =>
    if ok then
      .ok { showLoadingPanel s with
              toasts := s.toasts ++ [⟨"success", "Message sent successfully"⟩],
              console := addConsoleMessage s.console "success"
                ((if s.messageTypeSystem then "Sent system instruction: "
                  else "Sent message: ") ++ jsTrim s.messageInput) true,
              messageInput := "",
              charCounter := "0/1000" }
    else .error (msgField.getD "Failed to send message")

/-- The catch block: error toast plus error console line.  The state
it sees is the one after `showLoading` (the only mutation before any
throw point). -/
def sendMessageCatch (s1 : PanelState) (e : String) : PanelState :=
  { s1 with toasts := s1.toasts ++ [⟨"error", "Failed to send message: " ++ e⟩],
            console := addConsoleMessage s1.console "error"
              ("Failed to send message: " ++ e) true }

/-- `sendMessage`: empty-message guard, then try/catch, then the
finally block (`hideLoading`).  The result is `.error` only if an
exception would escape to the caller. -/
def sendMessage (s : PanelState) (o : FetchOutcome) : Except String PanelState :=
  if (jsTrim s.messageInput).isEmpty then
    .ok (addToast s "warning" "Please enter a message")
  else
    match sendMessageTry s o with
    | .ok s2 => .ok (hideLoadingPanel s2)
    | .error e => .ok (hideLoadingPanel (sendMessageCatch (showLoadingPanel s) e))

/-- C9: with a non-empty trimmed message, `sendMessage` never lets an
exception escape; the finally block always leaves the loading overlay
hidden and the send button enabled; only a `success: true` reply
clears the input and resets the counter to `0/1000`; every failure
(API `success: false` or a thrown fetch/parse error) produces an error
toast and an error console line and leaves the input intact. -/
theorem sendMessage_spec (s : PanelState) (o : FetchOutcome)
    (h : ¬ (jsTrim s.messageInput).isEmpty) :
    ∃ s' : PanelState, sendMessage s o = .ok s'
      ∧ s'.loadingVisible = false ∧ s'.sendDisabled = false
      ∧ (∀ mf, o = .reply true mf →
           s'.messageInput = "" ∧ s'.charCounter = "0/1000"
           ∧ s'.toasts = s.toasts ++ [⟨"success", "Message sent successfully"⟩])
      ∧ (∀ mf, o = .reply false mf →
           s'.messageInput = s.messageInput
           ∧ s'.toasts = s.toasts
               ++ [⟨"error", "Failed to send message: " ++ mf.getD "Failed to send message"⟩]
           ∧ s'.console = addConsoleMessage s.console "error"
               ("Failed to send message: " ++ mf.getD "Failed to send message") true)
      ∧ (∀ e, o = .thrown e →
           s'.messageInput = s.messageInput
           ∧ s'.toasts = s.toasts ++ [⟨"error", "Failed to send message: " ++ e⟩]
           ∧ s'.console = addConsoleMessage s.console "error"
               ("Failed to send message: " ++ e) true) := by
  unfold sendMessage
  rw [if_neg (by simpa using h)]
  rcases o with ⟨ok, mf⟩ | e
  · cases ok
    · refine ⟨_, rfl, rfl, rfl, ?_, ?_, ?_⟩
      · intro mf' heq
        cases heq
      · intro mf' heq
        cases heq
        exact ⟨rfl, rfl, rfl⟩
      · intro e heq
        cases heq
    · refine ⟨_, rfl, rfl, rfl, ?_, ?_, ?_⟩
      · intro mf' heq
        cases heq
        exact ⟨rfl, rfl, rfl⟩
      · intro mf' heq
        cases heq
      · intro e heq
        cases heq
  · refine ⟨_, rfl, rfl, rfl, ?_, ?_, ?_⟩
    · intro mf' heq
      cases heq
    · intro mf' heq
      cases heq
    · intro e' heq
      cases heq
      exact ⟨rfl, rfl, rfl⟩

/-- Concrete instance of the C9 specification: a thrown fetch error
on a panel with message `"hi"`. -/
theorem sendMessage_spec_witness :
    ∃ s' : PanelState,
      sendMessage ⟨[], [], false, false, "hi", "2/1000", false, [], false⟩
          (.thrown "Failed to fetch") = .ok s'
      ∧ s'.loadingVisible = false ∧ s'.sendDisabled = false :=
  have h := sendMessage_spec ⟨[], [], false, false, "hi", "2/1000", false, [], false⟩
    (.thrown "Failed to fetch") (by decide)
  ⟨h.choose, h.choose_spec.1, h.choose_spec.2.1, h.choose_spec.2.2.1⟩

/-! ## Claim C6: `debounce` (memory.js lines 1220–1230)

The wrapper keeps one pending timeout `(fire time, captured args)`.
Each invocation at time `t` clears the pending timeout — unless it
already fired, i.e. its fire time is at or before `t` — and sets a
new one for `t + wait` with the current arguments.  `debounceRun`
processes the time-ordered invocation list and returns the
`(fire time, args)` pairs at which the wrapped `func` actually runs. -/

def debounceRun (wait : Nat) (pending : Option (Nat × α)) :
    List (Nat × α) → List (Nat × α)
  | [] => pending.toList
  | (t, a) :: rest =>
    match pending with
    | some (tf, b) =>
      if tf ≤ t then (tf, b) :: debounceRun wait (some (t + wait, a)) rest
      else debounceRun wait (some (t + wait, a)) rest
    | none => debounceRun wait (some (t + wait, a)) rest

/-- The `wait` used for the search input handler
(`debounce(handleSearch, 300)`, memory.js line 218). -/
def searchDebounceWait : Nat := 300

theorem debounceRun_burst (wait : Nat) :
    ∀ (calls : List (Nat × α)) (t : Nat) (a : α),
      List.Chain' (fun p q : Nat × α => p.1 ≤ q.1 ∧ q.1 < p.1 + wait) ((t, a) :: calls) →
      ∀ tl al, ((t, a) :: calls).getLast? = some (tl, al) →
      debounceRun wait (some (t + wait, a)) calls = [(tl + wait, al)]
  | [], t, a, _, tl, al, hlast => by
    have h1 : (t, a) = (tl, al) := by
      simpa using hlast
    cases h1
    rfl
  | (t', a') :: rest, t, a, hchain, tl, al, hlast => by
    rcases List.chain'_cons.mp hchain with ⟨⟨hle, hlt⟩, hchain'⟩
    show (match some (t + wait, a) with
          | some (tf, b) =>
            if tf ≤ t' then (tf, b) :: debounceRun wait (some (t' + wait, a')) rest
            else debounceRun wait (some (t' + wait, a')) rest
          | none => debounceRun wait (some (t' + wait, a')) rest) = _
    rw [show (match some (t + wait, a) with
          | some (tf, b) =>
            if tf ≤ t' then (tf, b) :: debounceRun wait (some (t' + wait, a')) rest
            else debounceRun wait (some (t' + wait, a')) rest
          | none => debounceRun wait (some (t' + wait, a')) rest)
        = if t + wait ≤ t' then (t + wait, a) :: debounceRun wait (some (t' + wait, a')) rest
          else debounceRun wait (some (t' + wait, a')) rest from rfl]
    rw [if_neg (by omega)]
    exact debounceRun_burst wait rest t' a' hchain' tl al
      (by rwa [List.getLast?_cons_cons] at hlast)

/-- C6: for a burst of wrapper invocations in time order, each
separated from the next by less than `wait` milliseconds, the wrapped
`func` runs exactly once, `wait` ms after the last invocation, with
the arguments of the last invocation; and the search input handler
uses `wait = 300`. -/
theorem debounce_burst_spec (wait : Nat) (t0 : Nat) (a0 : α)
    (calls : List (Nat × α))
    (hchain : List.Chain' (fun p q : Nat × α => p.1 ≤ q.1 ∧ q.1 < p.1 + wait)
        ((t0, a0) :: calls))
    (tl : Nat) (al : α) (hlast : ((t0, a0) :: calls).getLast? = some (tl, al)) :
    debounceRun wait none ((t0, a0) :: calls) = [(tl + wait, al)]
    ∧ searchDebounceWait = 300 := by
  refine ⟨?_, rfl⟩
  show debounceRun wait (some (t0 + wait, a0)) calls = _
  exact debounceRun_burst wait calls t0 a0 hchain tl al hlast

/-- Concrete instance of the C6 property: three rapid keystrokes at
0, 100 and 250 ms with `wait = 300` fire the handler once, at 550 ms,
with the last keystroke's value. -/
theorem debounce_burst_spec_witness :
    debounceRun 300 none [(0, "a"), (100, "ab"), (250, "abc")] = [(550, "abc")] :=
  (debounce_burst_spec 300 0 "a" [(100, "ab"), (250, "abc")]
    (by simp [List.chain'_cons]) 250 "abc" (by simp)).1

/-! ## Claim C7: `handleFormSubmit` (memory.js lines 993–1056) -/

structure MemoryFormFields where
  key : String
  content : String
  category : String
  memory_type : String
  tags : String
deriving DecidableEq

/-- The JSON body built from the form (`memoryData`). -/
structure MemoryPayload where
  key : String
  content : String
  category : String
  memory_type : String
  tags : Option (List String)
deriving DecidableEq

inductive HttpMethod | post | put
deriving DecidableEq

/-- What `handleFormSubmit` does up to and including the single
`fetch`: either an error toast and an early return (no request, no
state change), or exactly one request.  `keyInPath` is the
`editingKey` used in the PUT URL. -/
inductive SubmitAction
  | toastError (msg : String)
  | send (method : HttpMethod) (keyInPath : Option String) (body : MemoryPayload)
deriving DecidableEq

/-- The `memoryData` object (lines 996–1003): trimmed key and
content, trimmed category with `'general'` fallback, the selected
memory type, and the comma-split / trimmed / non-empty tags, `null`
when the field is empty. -/
def buildMemoryData (f : MemoryFormFields) : MemoryPayload :=
  { key := jsTrim f.key
    content := jsTrim f.content
    category := if (jsTrim f.category).isEmpty then "general" else jsTrim f.category
    memory_type := f.memory_type
    tags := if f.tags.isEmpty then none
            else some (((jsSplitComma f.tags).map jsTrim).filter
              (fun t => !t.isEmpty)) }

def handleFormSubmit (isEditMode : Bool) (editingKey : String)
    (f : MemoryFormFields) : SubmitAction :=
  if (buildMemoryData f).key.isEmpty then .toastError "Memory key is required"
  else if (buildMemoryData f).content.isEmpty then
    .toastError "Memory content is required"
  else if isEditMode then .send .put (some editingKey) (buildMemoryData f)
  else .send .post none (buildMemoryData f)

/-- C7: an empty trimmed key or content yields only an error toast
and no request (the early return leaves `currentMemories`,
`filteredMemories` and the modal state untouched); otherwise exactly
one request is sent — PUT to `/api/memory/<editingKey>` in edit mode,
POST to `/api/memory` otherwise — whose body carries the trimmed key
and content, the trimmed category defaulting to `'general'`, the
selected memory type, and the comma-split trimmed non-empty tags
(`null` when the tags field is empty). -/
theorem handleFormSubmit_spec (isEditMode : Bool) (editingKey : String)
    (f : MemoryFormFields) :
    ((jsTrim f.key).isEmpty →
        handleFormSubmit isEditMode editingKey f = .toastError "Memory key is required")
    ∧ (¬ (jsTrim f.key).isEmpty → (jsTrim f.content).isEmpty →
        handleFormSubmit isEditMode editingKey f = .toastError "Memory content is required")
    ∧ (¬ (jsTrim f.key).isEmpty → ¬ (jsTrim f.content).isEmpty →
        handleFormSubmit isEditMode editingKey f
          = .send (if isEditMode then .put else .post)
              (if isEditMode then some editingKey else none)
              { key := jsTrim f.key
                content := jsTrim f.content
                category := if (jsTrim f.category).isEmpty then "general"
                            else jsTrim f.category
                memory_type := f.memory_type
                tags := if f.tags.isEmpty then none
                        else some (((jsSplitComma f.tags).map jsTrim).filter
                          (fun t => !t.isEmpty)) }) := by
  refine ⟨?_, ?_, ?_⟩
  · intro hk
    simp only [handleFormSubmit, buildMemoryData]
    rw [if_pos hk]
  · intro hk hc
    simp only [handleFormSubmit, buildMemoryData]
    rw [if_neg hk, if_pos hc]
  · intro hk hc
    simp only [handleFormSubmit, buildMemoryData]
    rw [if_neg hk, if_neg hc]
    cases isEditMode <;> simp

/-- Concrete instance of the C7 specification: whitespace-only key is
rejected with the key-required toast. -/
theorem handleFormSubmit_spec_witness :
    handleFormSubmit false "" ⟨"   ", "some content", "", "long_term", ""⟩
      = .toastError "Memory key is required" :=
  (handleFormSubmit_spec false "" ⟨"   ", "some content", "", "long_term", ""⟩).1
    (by decide)

/-! ## Claim C8: refresh guards (memory.js lines 285–311, 361–387, 743–769) -/

/-- The state read by the guard clauses at the top of `loadMemories`,
`loadMemoryStats` and `refreshData`: the two re-entrancy flags, the
current time and `lastViewMemoryTime`, the `hidden` classes of the
three modal elements, and whether `document.querySelector`
('.modal:not(.hidden)') finds any visible modal. -/
structure RefreshEnv where
  isAnyModalOpen : Bool
  isViewingMemory : Bool
  now : Int
  lastViewMemoryTime : Int
  memoryModalHidden : Bool
  viewModalHidden : Bool
  deleteModalHidden : Bool
  otherModalVisible : Bool
deriving DecidableEq

/-- The `modalsVisible.some(...)` check. -/
def modalsVisibleSome (e : RefreshEnv) : Bool :=
  !e.memoryModalHidden || !e.viewModalHidden || !e.deleteModalHidden
    || e.otherModalVisible

inductive RefreshAction | skipped | proceeds
deriving DecidableEq

/-- The three sequential early-return guards shared verbatim by
`loadMemories`, `loadMemoryStats` and `refreshData`. -/
def refreshGuard (e : RefreshEnv) : RefreshAction :=
  if e.isAnyModalOpen || e.isViewingMemory then .skipped
  else if e.now - e.lastViewMemoryTime < 15000 then .skipped
  else if modalsVisibleSome e then .skipped
  else .proceeds

/-- Guard prefix of `loadMemories` (lines 285–311): `.proceeds` means
the function goes on to fetch `/api/memory/list`. -/
def loadMemoriesAction (e : RefreshEnv) : RefreshAction := refreshGuard e

/-- Guard prefix of `loadMemoryStats` (lines 361–387). -/
def loadMemoryStatsAction (e : RefreshEnv) : RefreshAction := refreshGuard e

/-- Guard prefix of `refreshData` (lines 743–769). -/
def refreshDataAction (e : RefreshEnv) : RefreshAction := refreshGuard e

/-- C8: whenever `isAnyModalOpen` or `isViewingMemory` is set, or
fewer than 15000 ms have elapsed since `lastViewMemoryTime`, or one
of the modal elements is visible, each of `loadMemories`,
`loadMemoryStats` and `refreshData` returns early: no network request
is made and `currentMemories`, `filteredMemories`, `currentPage` and
the rendered table are left unchanged. -/
theorem refresh_guard_spec (e : RefreshEnv)
    (h : e.isAnyModalOpen = true ∨ e.isViewingMemory = true
         ∨ e.now - e.lastViewMemoryTime < 15000
         ∨ modalsVisibleSome e = true) :
    loadMemoriesAction e = .skipped
    ∧ loadMemoryStatsAction e = .skipped
    ∧ refreshDataAction e = .skipped := by
  have hg : refreshGuard e = .skipped := by
    unfold refreshGuard
    rcases h with h | h | h | h
    · rw [if_pos (by simp [h])]
    · rw [if_pos (by simp [h])]
    · by_cases hflags : (e.isAnyModalOpen || e.isViewingMemory) = true
      · rw [if_pos hflags]
      · rw [if_neg hflags, if_pos h]
    · by_cases hflags : (e.isAnyModalOpen || e.isViewingMemory) = true
      · rw [if_pos hflags]
      · rw [if_neg hflags]
        by_cases htime : e.now - e.lastViewMemoryTime < 15000
        · rw [if_pos htime]
        · rw [if_neg htime, if_pos h]
  exact ⟨hg, hg, hg⟩

/-- Concrete instance of the C8 guard: a memory was viewed 1000 ms
ago, so all three refreshes are skipped. -/
theorem refresh_guard_spec_witness :
    loadMemoriesAction ⟨false, false, 100000, 99000, true, true, true, false⟩ = .skipped
    ∧ loadMemoryStatsAction ⟨false, false, 100000, 99000, true, true, true, false⟩ = .skipped
    ∧ refreshDataAction ⟨false, false, 100000, 99000, true, true, true, false⟩ = .skipped :=
  refresh_guard_spec ⟨false, false, 100000, 99000, true, true, true, false⟩
    (Or.inr (Or.inr (Or.inl (by decide))))

end Glados
